import Mathlib

/-!
Verification of the smt-bench packed-subtree storage engine
(`src/trie.rs`, `src/old.rs`, `src/utils.rs`) against its specification.

Modelling conventions:
* Byte buffers (`Vec<u8>`, stored records, byte slices) are a length paired
  with a contents function (`Blob`).  Every indexing operation of the Rust
  code is bounds-checked exactly where Rust checks it; `none` (or the
  `Outcome.panic` result) stands for a Rust panic.
* Machine integers are `Nat`, with `% 256` inserted where the code reads a
  value as a `u8`, and with Rust's release-mode semantics for the `u8`
  right shift in `calculate_index` (the shift amount is masked by the bit
  width; a debug build would panic when the amount reaches 8).
* The underlying key-value transaction is a pair of records-by-key maps
  (namespace 0 = branches, namespace 1 = leaves) together with a ghost
  trace of the `get` / `insert_raw` / `delete` calls issued against it,
  used to state how many underlying store calls an engine operation makes.
-/

set_option maxHeartbeats 1000000
set_option maxRecDepth 100000

namespace SmtBench

/-- `BYTE_SIZE` (`trie.rs`). -/
def BYTE_SIZE : Nat := 8

/-- `NODES_PER_TRIE = (1 << BYTE_SIZE) - 1` (`trie.rs`), i.e. 255. -/
def NODES_PER_TRIE : Nat := (1 <<< BYTE_SIZE) - 1

/-- `MERGE_VALUE_SIZE = 32 + 32 + 2` (`trie.rs`). -/
def MERGE_VALUE_SIZE : Nat := 32 + 32 + 2

/-- `NODE_SIZE = MERGE_VALUE_SIZE * 2` (`trie.rs`). -/
def NODE_SIZE : Nat := MERGE_VALUE_SIZE * 2

/-- `TRIE_SIZE = NODES_PER_TRIE * NODE_SIZE` (`trie.rs`), i.e. 33660. -/
def TRIE_SIZE : Nat := NODES_PER_TRIE * NODE_SIZE

/-- Byte strings (`H256` values, keys, record contents) as lists of
naturals; every byte produced by the Rust code is `< 256`. -/
abbrev Bytes := List Nat

/-- `sparse_merkle_tree::merge::MergeValue`: either a plain 32-byte value
or a merge-with-zero triple (base node, zero bits, zero count). -/
inductive MergeValue where
  | value : Bytes → MergeValue
  | mergeWithZero : Bytes → Bytes → Nat → MergeValue
  deriving DecidableEq, Repr

/-- `sparse_merkle_tree::tree::BranchNode`: left and right merge values. -/
structure BranchNode where
  left : MergeValue
  right : MergeValue
  deriving DecidableEq, Repr

/-- `sparse_merkle_tree::tree::BranchKey`: a height (`u8` in Rust) and a
256-bit path (`H256`, 32 bytes). -/
structure BranchKey where
  height : Nat
  node_key : Bytes
  deriving DecidableEq, Repr

/-- A byte buffer or stored record: its length and its contents at every
index below the length.  Contents at indices at or above `len` are never
observed because every access of the code is bounds checked. -/
structure Blob where
  len : Nat
  bytes : Nat → Nat

/-- `data[i]` on a buffer; `none` is the out-of-bounds panic. -/
def readByte (d : Blob) (i : Nat) : Option Nat :=
  if i < d.len then some (d.bytes i) else none

/-- Reading the slice `&data[offset..offset + n]` into an owned list. -/
def readRange (d : Blob) (offset n : Nat) : Option Bytes :=
  if offset + n ≤ d.len then
    some ((List.range n).map fun j => d.bytes (offset + j))
  else none

/-- `data[i] = v`. -/
def writeByte (d : Blob) (i v : Nat) : Option Blob :=
  if i < d.len then
    some { len := d.len, bytes := fun j => if j = i then v else d.bytes j }
  else none

/-- `BranchTrie::load_h256`: copy `&data[offset..offset + 32]` into a
32-byte buffer. -/
def load_h256 (d : Blob) (offset : Nat) : Option Bytes :=
  readRange d offset 32

/-- `BranchTrie::save_h256`:
`data[offset..offset + 32].copy_from_slice(h.as_slice())`.  The slice op
panics when the range leaves the buffer and `copy_from_slice` panics when
the source does not hold exactly 32 bytes. -/
def save_h256 (d : Blob) (offset : Nat) (h : Bytes) : Option Blob :=
  if h.length = 32 ∧ offset + 32 ≤ d.len then
    some { len := d.len,
           bytes := fun j =>
             if offset ≤ j ∧ j < offset + 32 then h.getD (j - offset) 0
             else d.bytes j }
  else none

/-- `data[offset..offset + n].fill(0)`. -/
def fillZero (d : Blob) (offset n : Nat) : Option Blob :=
  if offset + n ≤ d.len then
    some { len := d.len,
           bytes := fun j =>
             if offset ≤ j ∧ j < offset + n then 0 else d.bytes j }
  else none

/-- `BranchTrie::load_merge_value` (`trie.rs` lines 74-86). -/
def load_merge_value (d : Blob) (offset : Nat) : Option MergeValue := do
  let tag ← readByte d offset
  if tag = 1 then
    let base_node ← load_h256 d (offset + 2)
    let zero_bits ← load_h256 d (offset + 2 + 32)
    let zero_count ← readByte d (offset + 1)
    pure (MergeValue.mergeWithZero base_node zero_bits zero_count)
  else
    let v ← load_h256 d (offset + 2)
    pure (MergeValue.value v)

/-- `BranchTrie::save_merge_value` (`trie.rs` lines 100-117).  Note that
the plain-value arm writes only the tag byte and the 32 value bytes; the
zero-count byte and the zero-bits bytes keep their previous contents. -/
def save_merge_value (d : Blob) (offset : Nat) (merge_value : MergeValue) : Option Blob :=
  match merge_value with
  | .value v => do
    let d ← writeByte d offset 0
    save_h256 d (offset + 2) v
  | .mergeWithZero base_node zero_bits zero_count => do
    let d ← writeByte d offset 1
    let d ← writeByte d (offset + 1) zero_count
    let d ← save_h256 d (offset + 2) base_node
    save_h256 d (offset + 2 + 32) zero_bits

/-- `BranchTrie::load_branch_node`. -/
def load_branch_node (d : Blob) (index : Nat) : Option BranchNode := do
  let offset := index * NODE_SIZE
  let left ← load_merge_value d offset
  let right ← load_merge_value d (offset + MERGE_VALUE_SIZE)
  pure ⟨left, right⟩

/-- `BranchTrie::save_branch_node`. -/
def save_branch_node (d : Blob) (index : Nat) (branch : BranchNode) : Option Blob := do
  let offset := index * NODE_SIZE
  let d ← save_merge_value d offset branch.left
  save_merge_value d (offset + MERGE_VALUE_SIZE) branch.right

/-- `BranchTrie::calculate_index` (`trie.rs` lines 57-64).  `index_byte`
is the `u8` of the key's path at byte position `rounded_path.height / 8`
(hence the `% 256`).  The Rust expression
`index_byte >> (inner_height + 1)` is a `u8` shift whose amount reaches 8
when `inner_height = 7`; a release build masks the amount by the bit
width (the `% 8` below), a debug build panics there. -/
def calculate_index (rounded_path branch_key : BranchKey) : Nat :=
  let index_byte := branch_key.node_key.getD (rounded_path.height / BYTE_SIZE) 0 % 256
  let inner_height := branch_key.height % BYTE_SIZE
  let base_index := (1 <<< (8 - inner_height - 1)) - 1
  let index := index_byte >>> ((inner_height + 1) % 8)
  base_index + index

/-- The `u8` shift amount `inner_height + 1` used by `calculate_index`. -/
def shift_amount (branch_key : BranchKey) : Nat :=
  branch_key.height % BYTE_SIZE + 1

/-- `H256::copy_bits(start)` from the sparse-merkle-tree crate (an external
dependency of `trie.rs`): keep the bytes from position `start / 8` up,
zero the bytes below, and when `start % 8 ≠ 0` clear the low `start % 8`
bits of the boundary byte (`&= 0xff << remain` on a `u8`). -/
def copy_bits (key : Bytes) (start : Nat) : Bytes :=
  let start_byte := start / BYTE_SIZE
  let remain := start % BYTE_SIZE
  (List.range 32).map fun i =>
    if i < start_byte then 0
    else if i = start_byte ∧ remain ≠ 0 then
      Nat.land (key.getD i 0 % 256) ((255 <<< remain) % 256)
    else key.getD i 0

/-- `H256::parent_path(height)` from the sparse-merkle-tree crate: the
zero path for `height = u8::MAX`, otherwise `copy_bits (height + 1)`. -/
def parent_path (key : Bytes) (height : Nat) : Bytes :=
  if height = 255 then List.replicate 32 0 else copy_bits key (height + 1)

/-- `round_branch_key` (`trie.rs` lines 132-138): the deepest height of the
key's 8-level band and the ancestor path at that height.  The `as u8`
cast is the `% 256`. -/
def round_branch_key (branch_key : BranchKey) : BranchKey :=
  let rounded_height := ((branch_key.height / BYTE_SIZE + 1) * BYTE_SIZE - 1) % 256
  { height := rounded_height
    node_key := parent_path branch_key.node_key rounded_height }

/-- `pack_key` (`utils.rs`): the molecule `SMTBranchKey` struct serializes
as one height byte followed by the 32 path bytes. -/
def pack_key (key : BranchKey) : Bytes :=
  key.height % 256 :: key.node_key

/-- A call issued against the underlying `KVStore` transaction; a ghost
trace of these records how many underlying operations an engine call
performs. -/
inductive StoreOp where
  | get : Nat → Bytes → StoreOp
  | insertRaw : Nat → Bytes → Blob → StoreOp
  | delete : Nat → Bytes → StoreOp

/-- The underlying key-value transaction: the records per namespace
(0 = branch records, 1 = leaf records) and the ghost call trace. -/
structure KV where
  branches : Bytes → Option Blob
  leaves : Bytes → Option Blob
  ops : List StoreOp

/-- `store.get(ns, key)`. -/
def kvGet (kv : KV) (ns : Nat) (key : Bytes) : Option Blob × KV :=
  ((if ns = 0 then kv.branches key else kv.leaves key),
   { kv with ops := kv.ops ++ [StoreOp.get ns key] })

/-- `store.insert_raw(ns, key, value)`; the model transaction always
accepts the write. -/
def kvInsertRaw (kv : KV) (ns : Nat) (key : Bytes) (value : Blob) : KV :=
  if ns = 0 then
    { branches := fun k => if k = key then some value else kv.branches k
      leaves := kv.leaves
      ops := kv.ops ++ [StoreOp.insertRaw ns key value] }
  else
    { branches := kv.branches
      leaves := fun k => if k = key then some value else kv.leaves k
      ops := kv.ops ++ [StoreOp.insertRaw ns key value] }

/-- `store.delete(ns, key)`; the model transaction always accepts it. -/
def kvDelete (kv : KV) (ns : Nat) (key : Bytes) : KV :=
  if ns = 0 then
    { branches := fun k => if k = key then none else kv.branches k
      leaves := kv.leaves
      ops := kv.ops ++ [StoreOp.delete ns key] }
  else
    { branches := kv.branches
      leaves := fun k => if k = key then none else kv.leaves k
      ops := kv.ops ++ [StoreOp.delete ns key] }

/-- The result of one engine call: a normal return, an
`SMTError::Store` with its message, or a Rust panic. -/
inductive Outcome (α : Type) where
  | ok : α → Outcome α
  | err : String → Outcome α
  | panic : Outcome α
  deriving DecidableEq, Repr

/-- Runtime state of a `TrieStore` (or `CountingStore`): the transaction
it borrows plus its `reads` / `writes` counters. -/
structure TrieState where
  kv : KV
  reads : Nat
  writes : Nat

/-- `BranchTrie::empty`: `vec![0u8; TRIE_SIZE]`. -/
def trieEmpty : Blob :=
  { len := TRIE_SIZE, bytes := fun _ => 0 }

/-- `BranchTrie::get_branch`: always `Ok(Some(load_branch_node(index)))`
unless the slot access panics. -/
def BranchTrie.get_branch (data : Blob) (rounded_path branch_key : BranchKey) :
    Option BranchNode :=
  load_branch_node data (calculate_index rounded_path branch_key)

/-- `BranchTrie::insert_branch`. -/
def BranchTrie.insert_branch (data : Blob) (rounded_path branch_key : BranchKey)
    (branch : BranchNode) : Option Blob :=
  save_branch_node data (calculate_index rounded_path branch_key) branch

/-- `BranchTrie::remove_branch`: zero-fill the slot's byte range.  The
returned flag ("the trie holds no branch any more, the record may be
deleted") is always `false` in the source. -/
def BranchTrie.remove_branch (data : Blob) (rounded_path branch_key : BranchKey) :
    Option (Blob × Bool) := do
  let offset := calculate_index rounded_path branch_key * NODE_SIZE
  let d ← fillZero data offset NODE_SIZE
  pure (d, false)

/-- `TrieStore::get_branch` (`trie.rs` lines 160-180). -/
def TrieStore.get_branch (s : TrieState) (branch_key : BranchKey) :
    Outcome (Option BranchNode) × TrieState :=
  let rounded_key := round_branch_key branch_key
  let packed_rounded_key := pack_key rounded_key
  let s1 : TrieState := { s with reads := s.reads + 1 }
  let res := kvGet s1.kv 0 packed_rounded_key
  let s2 : TrieState := { s1 with kv := res.2 }
  match res.1 with
  | none => (.ok none, s2)
  | some slice =>
    if slice.len ≠ TRIE_SIZE then (.err "corrupted trie", s2)
    else
      match BranchTrie.get_branch slice rounded_key branch_key with
      | some branch => (.ok (some branch), s2)
      | none => (.panic, s2)

/-- `TrieStore::insert_branch` (`trie.rs` lines 195-221). -/
def TrieStore.insert_branch (s : TrieState) (branch_key : BranchKey)
    (branch : BranchNode) : Outcome Unit × TrieState :=
  let rounded_key := round_branch_key branch_key
  let packed_rounded_key := pack_key rounded_key
  let s1 : TrieState := { s with reads := s.reads + 1 }
  let res := kvGet s1.kv 0 packed_rounded_key
  let s2 : TrieState := { s1 with kv := res.2 }
  let trie : Outcome Blob :=
    match res.1 with
    | some slice => if slice.len ≠ TRIE_SIZE then .err "corrupted trie" else .ok slice
    | none => .ok trieEmpty
  match trie with
  | .err e => (.err e, s2)
  | .panic => (.panic, s2)
  | .ok data =>
    match BranchTrie.insert_branch data rounded_key branch_key branch with
    | none => (.panic, s2)
    | some data2 =>
      let s3 : TrieState := { s2 with writes := s2.writes + 1 }
      (.ok (), { s3 with kv := kvInsertRaw s3.kv 0 packed_rounded_key data2 })

/-- `TrieStore::remove_branch` (`trie.rs` lines 232-264). -/
def TrieStore.remove_branch (s : TrieState) (branch_key : BranchKey) :
    Outcome Unit × TrieState :=
  let rounded_key := round_branch_key branch_key
  let packed_rounded_key := pack_key rounded_key
  let s1 : TrieState := { s with reads := s.reads + 1 }
  let res := kvGet s1.kv 0 packed_rounded_key
  let s2 : TrieState := { s1 with kv := res.2 }
  let trie : Outcome Blob :=
    match res.1 with
    | some slice => if slice.len ≠ TRIE_SIZE then .err "corrupted trie" else .ok slice
    | none => .ok trieEmpty
  match trie with
  | .err e => (.err e, s2)
  | .panic => (.panic, s2)
  | .ok data =>
    match BranchTrie.remove_branch data rounded_key branch_key with
    | none => (.panic, s2)
    | some dr =>
      let s3 : TrieState := { s2 with writes := s2.writes + 1 }
      if dr.2 then
        (.ok (), { s3 with kv := kvDelete s3.kv 0 packed_rounded_key })
      else
        (.ok (), { s3 with kv := kvInsertRaw s3.kv 0 packed_rounded_key dr.1 })

/-- The byte string held by a stored record. -/
def blobToList (b : Blob) : Bytes :=
  (List.range b.len).map b.bytes

/-- A stored record holding the given byte string. -/
def listToBlob (l : Bytes) : Blob :=
  { len := l.length, bytes := fun i => l.getD i 0 }

/-- `TrieStore::get_leaf` (`trie.rs` lines 182-193). -/
def TrieStore.get_leaf (s : TrieState) (leaf_key : Bytes) :
    Outcome (Option Bytes) × TrieState :=
  let s1 : TrieState := { s with reads := s.reads + 1 }
  let res := kvGet s1.kv 1 leaf_key
  let s2 : TrieState := { s1 with kv := res.2 }
  match res.1 with
  | some slice =>
    if slice.len = 32 then (.ok (some (blobToList slice)), s2)
    else (.err "get corrupted leaf", s2)
  | none => (.ok none, s2)

/-- `TrieStore::insert_leaf` (`trie.rs` lines 223-230). -/
def TrieStore.insert_leaf (s : TrieState) (leaf_key leaf : Bytes) :
    Outcome Unit × TrieState :=
  let s1 : TrieState := { s with writes := s.writes + 1 }
  (.ok (), { s1 with kv := kvInsertRaw s1.kv 1 leaf_key (listToBlob leaf) })

/-- `TrieStore::remove_leaf` (`trie.rs` lines 266-272): one underlying
`delete`; the source does not touch either counter here. -/
def TrieStore.remove_leaf (s : TrieState) (leaf_key : Bytes) :
    Outcome Unit × TrieState :=
  (.ok (), { s with kv := kvDelete s.kv 1 leaf_key })

/-- The 4-byte little-endian number at `o` (molecule headers). -/
def readU32LE (s : Bytes) (o : Nat) : Nat :=
  s.getD o 0 % 256 + 256 * (s.getD (o + 1) 0 % 256) +
    65536 * (s.getD (o + 2) 0 % 256) + 16777216 * (s.getD (o + 3) 0 % 256)

/-- Molecule verification and decoding of an `SMTValue` struct (one
`Byte32`, fixed 32 bytes); external generated code of `gw_types`. -/
def smtValue_from_slice (s : Bytes) : Option MergeValue :=
  if s.length = 32 then some (.value s) else none

/-- Molecule `SMTMergeWithZero` struct (`Byte32`, `Byte32`, `byte`;
fixed 65 bytes); external generated code of `gw_types`. -/
def smtMergeWithZero_from_slice (s : Bytes) : Option MergeValue :=
  if s.length = 65 then
    some (.mergeWithZero (s.take 32) ((s.drop 32).take 32) (s.getD 64 0))
  else none

/-- Molecule union `SMTMergeValue`: a 4-byte little-endian item id (0 =
`SMTValue`, 1 = `SMTMergeWithZero`) followed by the item. -/
def smtMergeValue_from_slice (s : Bytes) : Option MergeValue :=
  if 4 ≤ s.length then
    if readU32LE s 0 = 0 then smtValue_from_slice (s.drop 4)
    else if readU32LE s 0 = 1 then smtMergeWithZero_from_slice (s.drop 4)
    else none
  else none

/-- Molecule table `SMTBranchNode` (fields `left`, `right`, both
`SMTMergeValue`): a 4-byte full size that must equal the slice length,
two 4-byte field offsets (the first must be 12), then the two fields.
`SMTBranchNodeReader::from_slice_should_be_ok` — external
molecule-generated code used by `CountingStore::get_branch` — panics
(`none` here) whenever this verification fails; it has no error return. -/
def smtBranchNode_from_slice (s : Bytes) : Option BranchNode :=
  if 12 ≤ s.length ∧ readU32LE s 0 = s.length then
    let off1 := readU32LE s 4
    let off2 := readU32LE s 8
    if off1 = 12 ∧ off1 ≤ off2 ∧ off2 ≤ s.length then
      match smtMergeValue_from_slice ((s.drop off1).take (off2 - off1)),
            smtMergeValue_from_slice (s.drop off2) with
      | some l, some r => some ⟨l, r⟩
      | _, _ => none
    else none
  else none

/-- `CountingStore::get_branch` (`old.rs` lines 118-128): one read, then
molecule decoding via `from_slice_should_be_ok`.  The function has no
error return path: a stored record that fails molecule verification is a
panic, not an `SMTError`. -/
def CountingStore.get_branch (s : TrieState) (branch_key : BranchKey) :
    Outcome (Option BranchNode) × TrieState :=
  let s1 : TrieState := { s with reads := s.reads + 1 }
  let res := kvGet s1.kv 0 (pack_key branch_key)
  let s2 : TrieState := { s1 with kv := res.2 }
  match res.1 with
  | some slice =>
    match smtBranchNode_from_slice (blobToList slice) with
    | some branch => (.ok (some branch), s2)
    | none => (.panic, s2)
  | none => (.ok none, s2)

/-- `CountingStore::get_leaf` (`old.rs` lines 130-141), textually the same
code as `TrieStore::get_leaf`. -/
def CountingStore.get_leaf (s : TrieState) (leaf_key : Bytes) :
    Outcome (Option Bytes) × TrieState :=
  TrieStore.get_leaf s leaf_key

/-- The slot-index formula exactly as the spec words it (§4.2):
`(2^(8 - innerHeight - 1) - 1) + (directionByte >> (innerHeight + 1))`,
with a true mathematical right shift. -/
def spec_slot_index (innerHeight directionByte : Nat) : Nat :=
  (2 ^ (8 - innerHeight - 1) - 1) + directionByte / 2 ^ (innerHeight + 1)

/-- The byte of the key's path holding its in-band direction bits (the
byte `calculate_index` selects). -/
def direction_byte (k : BranchKey) : Nat :=
  k.node_key.getD (k.height / BYTE_SIZE) 0

/-- A branch key shaped as the SMT layer produces them: the height is a
`u8`, the direction byte is a `u8`, and the direction byte's bits at
heights `≤ height` are zero (the SMT keeps `node_key` equal to a
`parent_path` at `height`, which zeroes all bits below `height + 1`). -/
def BandAligned (k : BranchKey) : Prop :=
  k.height < 256 ∧ direction_byte k < 256 ∧
    direction_byte k % 2 ^ (k.height % 8 + 1) = 0

/-- Representable merge values: 32-byte fields and a `u8` zero count. -/
def ReprMergeValue : MergeValue → Prop
  | .value v => v.length = 32
  | .mergeWithZero base_node zero_bits zero_count =>
      base_node.length = 32 ∧ zero_bits.length = 32 ∧ zero_count < 256

/-- Representable branch nodes. -/
def ReprBranchNode (n : BranchNode) : Prop :=
  ReprMergeValue n.left ∧ ReprMergeValue n.right

/-- The node every logically empty slot decodes to: both children are the
plain value of 32 zero bytes. -/
def empty_branch_node : BranchNode :=
  ⟨.value (List.replicate 32 0), .value (List.replicate 32 0)⟩

/-- All (inner height, direction byte) patterns occurring in one band:
inner heights 0..7 with the byte's low `ih + 1` bits zero. -/
def band_pairs : List (Nat × Nat) :=
  ((List.range 8).map fun ih =>
    (List.range 256).filterMap fun b =>
      if b % 2 ^ (ih + 1) = 0 then some (ih, b) else none).flatten

/-- 32 zero bytes. -/
def zero32 : Bytes := List.replicate 32 0

/-- The rounded key of band 0: height 7, zero path. -/
def rounded0 : BranchKey := ⟨7, zero32⟩

/-- A band-0 branch key with the given height and direction byte. -/
def mkKey (h b : Nat) : BranchKey := ⟨h, b :: List.replicate 31 0⟩

/-- The slot a band-0 (inner height, direction byte) pair is stored at. -/
def slot_of (p : Nat × Nat) : Nat := calculate_index rounded0 (mkKey p.1 p.2)

/-- The branch key of height 0 on the zero path. -/
def kZero : BranchKey := ⟨0, zero32⟩

/-- An empty transaction. -/
def kvEmpty : KV := ⟨fun _ => none, fun _ => none, []⟩

/-- A fresh engine state over an empty transaction. -/
def st0 : TrieState := ⟨kvEmpty, 0, 0⟩

/-- A sample branch node used by the concrete witnesses. -/
def nodeEx : BranchNode :=
  ⟨.value (List.replicate 32 1), .mergeWithZero zero32 zero32 3⟩

/-- An all-zero full-size blob record. -/
def blobZero : Blob := ⟨TRIE_SIZE, fun _ => 0⟩

/-- A one-byte record (wrong length for every fixed-size check). -/
def blobShort : Blob := ⟨1, fun _ => 0⟩

/-- A 132-byte buffer whose every byte is 7. -/
def blobSeven : Blob := ⟨132, fun _ => 7⟩

/-- A state whose band-0 record is the all-zero blob. -/
def stWithBlob : TrieState :=
  ⟨⟨fun key => if key = pack_key (round_branch_key kZero) then some blobZero else none,
    fun _ => none, []⟩, 0, 0⟩

/-- A state whose band-0 record has the wrong length. -/
def stBadBlob : TrieState :=
  ⟨⟨fun key => if key = pack_key (round_branch_key kZero) then some blobShort else none,
    fun _ => none, []⟩, 0, 0⟩

/-- A state whose direct (unrounded) branch record for `kZero` is a
one-byte record. -/
def stBadDirect : TrieState :=
  ⟨⟨fun key => if key = pack_key kZero then some blobShort else none,
    fun _ => none, []⟩, 0, 0⟩

/-- A state whose leaf record under the zero key has the wrong length. -/
def stBadLeaf : TrieState :=
  ⟨⟨fun _ => none, fun key => if key = zero32 then some blobShort else none, []⟩, 0, 0⟩

/-- Band alignment is decidable, so concrete keys can be checked. -/
instance (k : BranchKey) : Decidable (BandAligned k) := by
  unfold BandAligned
  infer_instance

/-- Representability of a merge value is decidable. -/
instance (v : MergeValue) : Decidable (ReprMergeValue v) := by
  cases v <;> simp only [ReprMergeValue] <;> infer_instance

/-- Representability of a branch node is decidable. -/
instance (n : BranchNode) : Decidable (ReprBranchNode n) := by
  unfold ReprBranchNode
  infer_instance

/-- The buffer produced by saving the all-zero plain value into a fresh
all-zero blob (a concrete fixture for the encoding claims). -/
def blobSaved : Blob :=
  (save_merge_value blobZero 0 (MergeValue.value zero32)).getD blobZero

/-! ### Arithmetic facts about the layout constants -/

lemma MERGE_VALUE_SIZE_eq : MERGE_VALUE_SIZE = 66 := rfl

lemma NODE_SIZE_eq : NODE_SIZE = 132 := rfl

lemma NODES_PER_TRIE_eq : NODES_PER_TRIE = 255 := rfl

lemma TRIE_SIZE_eq : TRIE_SIZE = 33660 := rfl

lemma trieEmpty_len : trieEmpty.len = TRIE_SIZE := rfl

/-! ### Elimination lemmas for the buffer primitives -/

lemma writeByte_eq_some {d : Blob} {i v : Nat} {d2 : Blob}
    (h : writeByte d i v = some d2) :
    i < d.len ∧ d2.len = d.len ∧
      ∀ j, d2.bytes j = if j = i then v else d.bytes j := by
  unfold writeByte at h
  split at h
  · cases h
    exact ⟨by assumption, rfl, fun j => rfl⟩
  · cases h

lemma save_h256_eq_some {d : Blob} {o : Nat} {src : Bytes} {d2 : Blob}
    (h : save_h256 d o src = some d2) :
    src.length = 32 ∧ o + 32 ≤ d.len ∧ d2.len = d.len ∧
      ∀ j, d2.bytes j =
        if o ≤ j ∧ j < o + 32 then src.getD (j - o) 0 else d.bytes j := by
  unfold save_h256 at h
  split at h
  · cases h
    exact ⟨by tauto, by tauto, rfl, fun j => rfl⟩
  · cases h

lemma fillZero_eq_some {d : Blob} {o n : Nat} {d2 : Blob}
    (h : fillZero d o n = some d2) :
    o + n ≤ d.len ∧ d2.len = d.len ∧
      ∀ j, d2.bytes j = if o ≤ j ∧ j < o + n then 0 else d.bytes j := by
  unfold fillZero at h
  split at h
  · cases h
    exact ⟨by assumption, rfl, fun j => rfl⟩
  · cases h

lemma writeByte_pos {d : Blob} {i : Nat} (v : Nat) (h : i < d.len) :
    writeByte d i v =
      some { len := d.len, bytes := fun j => if j = i then v else d.bytes j } := by
  unfold writeByte
  rw [if_pos h]

lemma save_h256_pos {d : Blob} {o : Nat} {src : Bytes}
    (hsrc : src.length = 32) (ho : o + 32 ≤ d.len) :
    save_h256 d o src =
      some { len := d.len,
             bytes := fun j =>
               if o ≤ j ∧ j < o + 32 then src.getD (j - o) 0 else d.bytes j } := by
  unfold save_h256
  rw [if_pos ⟨hsrc, ho⟩]

lemma fillZero_pos {d : Blob} {o n : Nat} (h : o + n ≤ d.len) :
    fillZero d o n =
      some { len := d.len,
             bytes := fun j => if o ≤ j ∧ j < o + n then 0 else d.bytes j } := by
  unfold fillZero
  rw [if_pos h]

lemma writeByte_isSome {d : Blob} {i v : Nat} (h : i < d.len) :
    (writeByte d i v).isSome := by
  unfold writeByte
  rw [if_pos h]
  rfl

lemma save_h256_isSome {d : Blob} {o : Nat} {src : Bytes}
    (hsrc : src.length = 32) (ho : o + 32 ≤ d.len) :
    (save_h256 d o src).isSome := by
  unfold save_h256
  rw [if_pos ⟨hsrc, ho⟩]
  rfl

lemma readByte_pos {d : Blob} {i : Nat} (h : i < d.len) :
    readByte d i = some (d.bytes i) := by
  unfold readByte
  rw [if_pos h]

lemma readRange_pos {d : Blob} {o n : Nat} (h : o + n ≤ d.len) :
    readRange d o n = some ((List.range n).map fun j => d.bytes (o + j)) := by
  unfold readRange
  rw [if_pos h]

lemma readByte_congr {d1 d2 : Blob} {i : Nat}
    (hlen : d2.len = d1.len) (hb : d2.bytes i = d1.bytes i) :
    readByte d2 i = readByte d1 i := by
  unfold readByte
  rw [hlen, hb]

lemma readRange_congr {d1 d2 : Blob} {o n : Nat}
    (hlen : d2.len = d1.len) (hb : ∀ j, j < n → d2.bytes (o + j) = d1.bytes (o + j)) :
    readRange d2 o n = readRange d1 o n := by
  unfold readRange
  rw [hlen]
  split
  · exact congrArg some (List.map_congr_left fun j hj => hb j (List.mem_range.mp hj))
  · rfl

/-! ### List recovery helpers -/

lemma range_map_getD (l : Bytes) :
    (List.range l.length).map (fun j => l.getD j 0) = l := by
  induction l with
  | nil => rfl
  | cons a t ih =>
    rw [List.length_cons, List.range_succ_eq_map, List.map_cons, List.map_map]
    simp only [Function.comp, List.getD_cons_zero, List.getD_cons_succ]
    exact congrArg (a :: ·) ih

lemma range_map_getD_of_length {l : Bytes} {n : Nat} (h : l.length = n) :
    (List.range n).map (fun j => l.getD j 0) = l := by
  rw [← h]
  exact range_map_getD l

lemma range_map_zero (n : Nat) :
    (List.range n).map (fun _ => (0 : Nat)) = List.replicate n 0 := by
  rw [List.map_const', List.length_range]

/-- Recovering a 32-byte source list from a buffer it was copied into. -/
lemma bytes_map_eq {d : Blob} {o : Nat} {src : Bytes} (hlen : src.length = 32)
    (hb : ∀ j, j < 32 → d.bytes (o + j) = src.getD j 0) :
    ((List.range 32).map fun j => d.bytes (o + j)) = src := by
  rw [List.map_congr_left (fun j hj => hb j (List.mem_range.mp hj))]
  exact range_map_getD_of_length hlen

/-! ### Loading a merge value -/

lemma load_merge_value_value {d : Blob} {o : Nat}
    (h1 : o < d.len) (h2 : o + 2 + 32 ≤ d.len) (htag : d.bytes o ≠ 1) :
    load_merge_value d o =
      some (.value ((List.range 32).map fun j => d.bytes (o + 2 + j))) := by
  unfold load_merge_value load_h256
  rw [readByte_pos h1, readRange_pos h2]
  simp [htag]

lemma load_merge_value_mwz {d : Blob} {o : Nat}
    (hlen : o + MERGE_VALUE_SIZE ≤ d.len) (htag : d.bytes o = 1) :
    load_merge_value d o =
      some (.mergeWithZero
        ((List.range 32).map fun j => d.bytes (o + 2 + j))
        ((List.range 32).map fun j => d.bytes (o + 2 + 32 + j))
        (d.bytes (o + 1))) := by
  rw [MERGE_VALUE_SIZE_eq] at hlen
  unfold load_merge_value load_h256
  rw [readByte_pos (show o < d.len by omega),
      readByte_pos (show o + 1 < d.len by omega),
      readRange_pos (show o + 2 + 32 ≤ d.len by omega),
      readRange_pos (show o + 2 + 32 + 32 ≤ d.len by omega)]
  simp [htag]

lemma load_merge_value_congr {d1 d2 : Blob} {o : Nat}
    (hlen : d2.len = d1.len)
    (hb : ∀ j, o ≤ j → j < o + MERGE_VALUE_SIZE → d2.bytes j = d1.bytes j) :
    load_merge_value d2 o = load_merge_value d1 o := by
  rw [MERGE_VALUE_SIZE_eq] at hb
  unfold load_merge_value load_h256
  rw [readByte_congr hlen (hb o (by omega) (by omega)),
      readByte_congr hlen (hb (o + 1) (by omega) (by omega)),
      readRange_congr hlen (fun j hj => hb (o + 2 + j) (by omega) (by omega)),
      readRange_congr hlen (fun j hj => hb (o + 2 + 32 + j) (by omega) (by omega))]

lemma load_merge_value_zeros {d : Blob} {o : Nat}
    (hlen : o + MERGE_VALUE_SIZE ≤ d.len)
    (hz : ∀ j, o ≤ j → j < o + MERGE_VALUE_SIZE → d.bytes j = 0) :
    load_merge_value d o = some (.value (List.replicate 32 0)) := by
  rw [MERGE_VALUE_SIZE_eq] at hlen hz
  rw [load_merge_value_value (show o < d.len by omega)
        (show o + 2 + 32 ≤ d.len by omega)
        (by rw [hz o (by omega) (by omega)]; omega)]
  have : ((List.range 32).map fun j => d.bytes (o + 2 + j)) =
      (List.range 32).map fun _ => (0 : Nat) :=
    List.map_congr_left fun j hj =>
      hz (o + 2 + j) (by omega) (by have := List.mem_range.mp hj; omega)
  rw [this, range_map_zero]

/-! ### Saving a merge value and loading it back -/

lemma save_merge_value_eq_some {d : Blob} {o : Nat} {mv : MergeValue} {d2 : Blob}
    (h : save_merge_value d o mv = some d2) :
    d2.len = d.len ∧
      (∀ j, j < o ∨ o + MERGE_VALUE_SIZE ≤ j → d2.bytes j = d.bytes j) ∧
      load_merge_value d2 o = some mv := by
  rw [MERGE_VALUE_SIZE_eq]
  cases mv with
  | value v =>
    unfold save_merge_value at h
    obtain ⟨d1, h1, h2⟩ := Option.bind_eq_some.mp h
    obtain ⟨hi, hl1, hb1⟩ := writeByte_eq_some h1
    obtain ⟨hsrc, ho, hl2, hb2⟩ := save_h256_eq_some h2
    have hbo : d2.bytes o = 0 := by
      rw [hb2 o, if_neg (by omega), hb1 o, if_pos rfl]
    refine ⟨by rw [hl2, hl1], ?_, ?_⟩
    · intro j hj
      rw [hb2 j, if_neg (by omega), hb1 j, if_neg (by omega)]
    · rw [load_merge_value_value (show o < d2.len by omega)
            (show o + 2 + 32 ≤ d2.len by omega)
            (by rw [hbo]; omega)]
      refine congrArg some (congrArg MergeValue.value ?_)
      refine bytes_map_eq hsrc fun j hj => ?_
      rw [hb2 (o + 2 + j), if_pos (by omega)]
      congr 1
      omega
  | mergeWithZero base zbits zc =>
    unfold save_merge_value at h
    obtain ⟨d1, h1, hr1⟩ := Option.bind_eq_some.mp h
    obtain ⟨dA, hA, hr2⟩ := Option.bind_eq_some.mp hr1
    obtain ⟨dB, hB, hC⟩ := Option.bind_eq_some.mp hr2
    obtain ⟨hi1, hl1, hb1⟩ := writeByte_eq_some h1
    obtain ⟨hiA, hlA, hbA⟩ := writeByte_eq_some hA
    obtain ⟨hsB, hoB, hlB, hbB⟩ := save_h256_eq_some hB
    obtain ⟨hsC, hoC, hlC, hbC⟩ := save_h256_eq_some hC
    have hlen2 : d2.len = d.len := by rw [hlC, hlB, hlA, hl1]
    have hbo : d2.bytes o = 1 := by
      rw [hbC o, if_neg (by omega), hbB o, if_neg (by omega),
          hbA o, if_neg (by omega), hb1 o, if_pos rfl]
    have hbo1 : d2.bytes (o + 1) = zc := by
      rw [hbC (o + 1), if_neg (by omega), hbB (o + 1), if_neg (by omega),
          hbA (o + 1), if_pos rfl]
    refine ⟨hlen2, ?_, ?_⟩
    · intro j hj
      rw [hbC j, if_neg (by omega), hbB j, if_neg (by omega),
          hbA j, if_neg (by omega), hb1 j, if_neg (by omega)]
    · rw [load_merge_value_mwz
            (show o + MERGE_VALUE_SIZE ≤ d2.len by
              rw [MERGE_VALUE_SIZE_eq, hlen2]
              have : o + 2 + 32 + 32 ≤ dB.len := hoC
              rw [hlB, hlA, hl1] at this
              omega)
            hbo]
      rw [hbo1]
      refine congrArg some ?_
      have hbase : ((List.range 32).map fun j => d2.bytes (o + 2 + j)) = base := by
        refine bytes_map_eq hsB fun j hj => ?_
        rw [hbC (o + 2 + j), if_neg (by omega), hbB (o + 2 + j), if_pos (by omega)]
        congr 1
        omega
      have hzb : ((List.range 32).map fun j => d2.bytes (o + 2 + 32 + j)) = zbits := by
        refine bytes_map_eq hsC fun j hj => ?_
        rw [hbC (o + 2 + 32 + j), if_pos (by omega)]
        congr 1
        omega
      rw [hbase, hzb]

lemma save_merge_value_isSome {d : Blob} {o : Nat} {v : MergeValue}
    (hv : ReprMergeValue v) (ho : o + MERGE_VALUE_SIZE ≤ d.len) :
    (save_merge_value d o v).isSome := by
  rw [MERGE_VALUE_SIZE_eq] at ho
  cases v with
  | value v =>
    unfold save_merge_value
    obtain ⟨D1, hD1⟩ := Option.isSome_iff_exists.mp
      (writeByte_isSome (v := 0) (show o < d.len by omega))
    obtain ⟨-, hl1, -⟩ := writeByte_eq_some hD1
    simp only [hD1, Option.bind_eq_bind, Option.some_bind]
    exact save_h256_isSome hv (by rw [hl1]; omega)
  | mergeWithZero base zbits zc =>
    obtain ⟨hbase, hzbits, -⟩ := hv
    unfold save_merge_value
    obtain ⟨D1, hD1⟩ := Option.isSome_iff_exists.mp
      (writeByte_isSome (v := 1) (show o < d.len by omega))
    obtain ⟨-, hl1, -⟩ := writeByte_eq_some hD1
    simp only [hD1, Option.bind_eq_bind, Option.some_bind]
    obtain ⟨D2, hD2⟩ := Option.isSome_iff_exists.mp
      (writeByte_isSome (d := D1) (v := zc) (i := o + 1) (by rw [hl1]; omega))
    obtain ⟨-, hl2, -⟩ := writeByte_eq_some hD2
    simp only [hD2, Option.bind_eq_bind, Option.some_bind]
    obtain ⟨D3, hD3⟩ := Option.isSome_iff_exists.mp
      (save_h256_isSome (d := D2) (o := o + 2) hbase (by rw [hl2, hl1]; omega))
    obtain ⟨-, -, hl3, -⟩ := save_h256_eq_some hD3
    simp only [hD3, Option.bind_eq_bind, Option.some_bind]
    exact save_h256_isSome hzbits (by rw [hl3, hl2, hl1]; omega)

lemma load_merge_value_isSome {d : Blob} {o : Nat}
    (ho : o + MERGE_VALUE_SIZE ≤ d.len) : (load_merge_value d o).isSome := by
  have ho' := ho
  rw [MERGE_VALUE_SIZE_eq] at ho'
  by_cases htag : d.bytes o = 1
  · rw [load_merge_value_mwz ho htag]
    rfl
  · rw [load_merge_value_value (show o < d.len by omega)
        (show o + 2 + 32 ≤ d.len by omega) htag]
    rfl

/-! ### Saving and loading whole branch nodes -/

lemma save_branch_node_eq_some {d : Blob} {i : Nat} {n : BranchNode} {d2 : Blob}
    (h : save_branch_node d i n = some d2) :
    d2.len = d.len ∧
      (∀ j, j < i * NODE_SIZE ∨ i * NODE_SIZE + NODE_SIZE ≤ j →
        d2.bytes j = d.bytes j) ∧
      load_branch_node d2 i = some n := by
  obtain ⟨nl, nr⟩ := n
  unfold save_branch_node at h
  obtain ⟨d1, h1, h2⟩ := Option.bind_eq_some.mp h
  obtain ⟨hl1, hf1, hload1⟩ := save_merge_value_eq_some h1
  obtain ⟨hl2, hf2, hload2⟩ := save_merge_value_eq_some h2
  refine ⟨by rw [hl2, hl1], ?_, ?_⟩
  · intro j hj
    simp only [NODE_SIZE_eq] at hj
    rw [hf2 j (by simp only [MERGE_VALUE_SIZE_eq, NODE_SIZE_eq]; omega),
        hf1 j (by simp only [MERGE_VALUE_SIZE_eq, NODE_SIZE_eq]; omega)]
  · have hleft : load_merge_value d2 (i * NODE_SIZE) = some nl := by
      rw [load_merge_value_congr hl2 fun j hj1 hj2 => hf2 j (Or.inl hj2)]
      exact hload1
    unfold load_branch_node
    simp only [hleft, hload2, Option.bind_eq_bind, Option.some_bind,
      Option.pure_def]

lemma save_branch_node_isSome {d : Blob} {i : Nat} {n : BranchNode}
    (hn : ReprBranchNode n) (hi : i * NODE_SIZE + NODE_SIZE ≤ d.len) :
    (save_branch_node d i n).isSome := by
  simp only [NODE_SIZE_eq] at hi
  unfold save_branch_node
  obtain ⟨d1, hd1⟩ := Option.isSome_iff_exists.mp
    (save_merge_value_isSome (d := d) (o := i * NODE_SIZE) hn.1
      (by simp only [MERGE_VALUE_SIZE_eq, NODE_SIZE_eq]; omega))
  simp only [hd1, Option.bind_eq_bind, Option.some_bind]
  obtain ⟨hl1, -, -⟩ := save_merge_value_eq_some hd1
  exact save_merge_value_isSome (d := d1) hn.2
    (by simp only [MERGE_VALUE_SIZE_eq, NODE_SIZE_eq]; rw [hl1]; omega)

lemma load_branch_node_isSome {d : Blob} {i : Nat}
    (hi : i * NODE_SIZE + NODE_SIZE ≤ d.len) :
    (load_branch_node d i).isSome := by
  simp only [NODE_SIZE_eq] at hi
  unfold load_branch_node
  obtain ⟨l, hl⟩ := Option.isSome_iff_exists.mp
    (load_merge_value_isSome (d := d) (o := i * NODE_SIZE)
      (by simp only [MERGE_VALUE_SIZE_eq, NODE_SIZE_eq]; omega))
  obtain ⟨r, hr⟩ := Option.isSome_iff_exists.mp
    (load_merge_value_isSome (d := d) (o := i * NODE_SIZE + MERGE_VALUE_SIZE)
      (by simp only [MERGE_VALUE_SIZE_eq, NODE_SIZE_eq]; omega))
  simp only [hl, hr, Option.bind_eq_bind, Option.some_bind, Option.pure_def,
    Option.isSome_some]

lemma load_branch_node_zeros {d : Blob} {i : Nat}
    (hlen : i * NODE_SIZE + NODE_SIZE ≤ d.len)
    (hz : ∀ j, i * NODE_SIZE ≤ j → j < i * NODE_SIZE + NODE_SIZE → d.bytes j = 0) :
    load_branch_node d i = some empty_branch_node := by
  simp only [NODE_SIZE_eq] at hlen hz
  have h1 : load_merge_value d (i * NODE_SIZE) = some (.value (List.replicate 32 0)) :=
    load_merge_value_zeros
      (by simp only [MERGE_VALUE_SIZE_eq, NODE_SIZE_eq]; omega)
      (fun j hj1 hj2 => by
        refine hz j (by simpa [NODE_SIZE_eq] using hj1) ?_
        simp only [MERGE_VALUE_SIZE_eq, NODE_SIZE_eq] at hj2 ⊢
        omega)
  have h2 : load_merge_value d (i * NODE_SIZE + MERGE_VALUE_SIZE) =
      some (.value (List.replicate 32 0)) :=
    load_merge_value_zeros
      (by simp only [MERGE_VALUE_SIZE_eq, NODE_SIZE_eq]; omega)
      (fun j hj1 hj2 => by
        refine hz j ?_ ?_ <;>
          simp only [MERGE_VALUE_SIZE_eq, NODE_SIZE_eq] at hj1 hj2 ⊢ <;> omega)
  unfold load_branch_node
  simp only [h1, h2, Option.bind_eq_bind, Option.some_bind, Option.pure_def,
    empty_branch_node]

/-! ### Index arithmetic -/

lemma calculate_index_spec {k : BranchKey} (hk : BandAligned k) :
    calculate_index (round_branch_key k) k =
      spec_slot_index (k.height % 8) (direction_byte k) := by
  obtain ⟨hh, hB, hz⟩ := hk
  unfold direction_byte BYTE_SIZE at hB hz
  simp only [calculate_index, round_branch_key, spec_slot_index, direction_byte,
    BYTE_SIZE]
  rw [show (((k.height / 8 + 1) * 8 - 1) % 256) / 8 = k.height / 8 by omega]
  rw [Nat.mod_eq_of_lt hB]
  rw [Nat.shiftLeft_eq, one_mul, Nat.shiftRight_eq_div_pow]
  have hm : k.height % 8 ≤ 6 ∨ k.height % 8 = 7 := by omega
  rcases hm with hm | hm
  · rw [Nat.mod_eq_of_lt (show k.height % 8 + 1 < 8 by omega)]
  · rw [hm]
    rw [hm] at hz
    have hB0 : k.node_key.getD (k.height / 8) 0 = 0 := by
      rw [show (2 : Nat) ^ (7 + 1) = 256 from by norm_num] at hz
      omega
    rw [hB0]
    norm_num

lemma spec_slot_index_lt {m B : Nat} (hm : m < 8) (hB : B < 256) :
    spec_slot_index m B < 255 := by
  unfold spec_slot_index
  have h8 : m = 0 ∨ m = 1 ∨ m = 2 ∨ m = 3 ∨ m = 4 ∨ m = 5 ∨ m = 6 ∨ m = 7 := by
    omega
  rcases h8 with rfl | rfl | rfl | rfl | rfl | rfl | rfl | rfl <;>
    norm_num <;> omega

lemma calculate_index_lt {k : BranchKey} (hk : BandAligned k) :
    calculate_index (round_branch_key k) k < 255 := by
  rw [calculate_index_spec hk]
  exact spec_slot_index_lt (Nat.mod_lt _ (by norm_num)) hk.2.1

/-! ### Store-level helper lemmas -/

lemma get_branch_of_stored {s : TrieState} {k : BranchKey} {data : Blob}
    {b : BranchNode}
    (hs : s.kv.branches (pack_key (round_branch_key k)) = some data)
    (hlen : data.len = TRIE_SIZE)
    (hload : BranchTrie.get_branch data (round_branch_key k) k = some b) :
    (TrieStore.get_branch s k).1 = .ok (some b) := by
  simp [TrieStore.get_branch, kvGet, hs, hlen, hload]

lemma get_branch_of_stored_bad {s : TrieState} {k : BranchKey} {data : Blob}
    (hs : s.kv.branches (pack_key (round_branch_key k)) = some data)
    (hlen : data.len ≠ TRIE_SIZE) :
    (TrieStore.get_branch s k).1 = .err "corrupted trie" := by
  simp [TrieStore.get_branch, kvGet, hs, hlen]

/-- C2: after a successful `TrieStore::insert_branch(k, n)`,
`TrieStore::get_branch(k)` on the resulting state returns `Ok(Some(n))`,
for every state, key and node. -/
theorem c2_insert_then_get_branch (s : TrieState) (k : BranchKey) (n : BranchNode)
    (h : (TrieStore.insert_branch s k n).1 = .ok ()) :
    (TrieStore.get_branch (TrieStore.insert_branch s k n).2 k).1 =
      .ok (some n) := by
  unfold TrieStore.insert_branch at h ⊢
  simp only [kvGet, reduceIte] at h ⊢
  cases hres : s.kv.branches (pack_key (round_branch_key k)) with
  | none =>
    simp only [hres] at h ⊢
    cases hsave : BranchTrie.insert_branch trieEmpty (round_branch_key k) k n with
    | none => simp [hsave] at h
    | some data2 =>
      simp only [hsave] at h ⊢
      unfold BranchTrie.insert_branch at hsave
      obtain ⟨hlen2, -, hload2⟩ := save_branch_node_eq_some hsave
      exact get_branch_of_stored (by simp [kvInsertRaw])
        (by rw [hlen2]; rfl) hload2
  | some data =>
    simp only [hres] at h ⊢
    by_cases hTR : data.len = TRIE_SIZE
    · simp only [hTR, ne_eq, not_true_eq_false, Bool.false_eq_true, reduceIte] at h ⊢
      cases hsave : BranchTrie.insert_branch data (round_branch_key k) k n with
      | none => simp [hsave] at h
      | some data2 =>
        simp only [hsave] at h ⊢
        unfold BranchTrie.insert_branch at hsave
        obtain ⟨hlen2, -, hload2⟩ := save_branch_node_eq_some hsave
        exact get_branch_of_stored (by simp [kvInsertRaw])
          (by rw [hlen2, hTR]) hload2
    · simp [hTR] at h


/-- C2 witness: the insert-then-get round trip at a concrete state, key
and node. -/
theorem c2_witness :
    (TrieStore.get_branch (TrieStore.insert_branch st0 kZero nodeEx).2 kZero).1 =
      .ok (some nodeEx) :=
  c2_insert_then_get_branch st0 kZero nodeEx (by decide)

/-- C6: once the band's blob record exists, a successful
`TrieStore::remove_branch(k)` followed by `TrieStore::get_branch(k)`
returns `Ok(Some(default node))` — both children the plain all-zero
value — and not `Ok(None)`. -/
theorem c6_remove_then_get_branch_default (s : TrieState) (k : BranchKey)
    (b : Blob)
    (hb : s.kv.branches (pack_key (round_branch_key k)) = some b)
    (h : (TrieStore.remove_branch s k).1 = .ok ()) :
    (TrieStore.get_branch (TrieStore.remove_branch s k).2 k).1 =
      .ok (some empty_branch_node) := by
  unfold TrieStore.remove_branch at h ⊢
  simp only [kvGet, reduceIte, hb] at h ⊢
  by_cases hTR : b.len = TRIE_SIZE
  · simp only [hTR, ne_eq, not_true_eq_false, Bool.false_eq_true, reduceIte]
      at h ⊢
    cases hrm : BranchTrie.remove_branch b (round_branch_key k) k with
    | none => simp [hrm] at h
    | some dr =>
      simp only [hrm] at h ⊢
      unfold BranchTrie.remove_branch at hrm
      obtain ⟨d2, hfz, hpure⟩ := Option.bind_eq_some.mp hrm
      obtain ⟨hbound, hlen2, hbytes2⟩ := fillZero_eq_some hfz
      cases hpure
      simp only [Bool.false_eq_true, reduceIte] at h ⊢
      have hload : BranchTrie.get_branch d2 (round_branch_key k) k =
          some empty_branch_node := by
        unfold BranchTrie.get_branch
        refine load_branch_node_zeros
          (by rw [hlen2, hTR]; rw [hTR] at hbound; exact hbound) ?_
        intro j hj1 hj2
        rw [hbytes2 j, if_pos ⟨hj1, hj2⟩]
      exact get_branch_of_stored (by simp [kvInsertRaw]) (by rw [hlen2, hTR])
        hload
  · simp [hTR] at h

/-- C6 witness: remove-then-get at a concrete state whose band record is
the all-zero blob. -/
theorem c6_witness :
    (TrieStore.get_branch (TrieStore.remove_branch stWithBlob kZero).2 kZero).1 =
      .ok (some empty_branch_node) :=
  c6_remove_then_get_branch_default stWithBlob kZero blobZero rfl (by decide)

/-- C7: a successful `TrieStore::remove_branch` always ends by writing the
full fixed-size blob back under the rounded-path key — also when the
band's record was absent before the call — and `remove_branch` never
issues a `delete` on the underlying store (its trace is one `get`, or one
`get` followed by one full-blob `insert_raw`). -/
theorem c7_remove_branch_always_rewrites :
    (∀ (s : TrieState) (k : BranchKey),
      (TrieStore.remove_branch s k).1 = .ok () →
      ∃ b2 : Blob,
        (TrieStore.remove_branch s k).2.kv.branches
            (pack_key (round_branch_key k)) = some b2 ∧
        b2.len = TRIE_SIZE ∧
        (TrieStore.remove_branch s k).2.kv.ops =
          s.kv.ops ++ [StoreOp.get 0 (pack_key (round_branch_key k)),
            StoreOp.insertRaw 0 (pack_key (round_branch_key k)) b2]) ∧
    (∀ (s : TrieState) (k : BranchKey),
      (TrieStore.remove_branch s k).2.kv.ops =
          s.kv.ops ++ [StoreOp.get 0 (pack_key (round_branch_key k))] ∨
      ∃ b2 : Blob, b2.len = TRIE_SIZE ∧
        (TrieStore.remove_branch s k).2.kv.ops =
          s.kv.ops ++ [StoreOp.get 0 (pack_key (round_branch_key k)),
            StoreOp.insertRaw 0 (pack_key (round_branch_key k)) b2]) := by
  constructor
  · intro s k h
    unfold TrieStore.remove_branch at h ⊢
    simp only [kvGet, reduceIte] at h ⊢
    cases hres : s.kv.branches (pack_key (round_branch_key k)) with
    | none =>
      simp only [hres] at h ⊢
      cases hrm : BranchTrie.remove_branch trieEmpty (round_branch_key k) k with
      | none => simp [hrm] at h
      | some dr =>
        have hrm2 := hrm
        unfold BranchTrie.remove_branch at hrm2
        obtain ⟨d2, hfz, hpure⟩ := Option.bind_eq_some.mp hrm2
        obtain ⟨-, hlen2, -⟩ := fillZero_eq_some hfz
        cases hpure
        simp only [hrm, Bool.false_eq_true, reduceIte] at h ⊢
        exact ⟨d2, by simp [kvInsertRaw], by rw [hlen2]; rfl,
          by simp [kvInsertRaw, List.append_assoc]⟩
    | some data =>
      simp only [hres] at h ⊢
      by_cases hTR : data.len = TRIE_SIZE
      · simp only [hTR, ne_eq, not_true_eq_false, Bool.false_eq_true,
          reduceIte] at h ⊢
        cases hrm : BranchTrie.remove_branch data (round_branch_key k) k with
        | none => simp [hrm] at h
        | some dr =>
          have hrm2 := hrm
          unfold BranchTrie.remove_branch at hrm2
          obtain ⟨d2, hfz, hpure⟩ := Option.bind_eq_some.mp hrm2
          obtain ⟨-, hlen2, -⟩ := fillZero_eq_some hfz
          cases hpure
          simp only [hrm, Bool.false_eq_true, reduceIte] at h ⊢
          exact ⟨d2, by simp [kvInsertRaw], by rw [hlen2, hTR],
            by simp [kvInsertRaw, List.append_assoc]⟩
      · simp [hTR] at h
  · intro s k
    unfold TrieStore.remove_branch
    simp only [kvGet, reduceIte]
    cases hres : s.kv.branches (pack_key (round_branch_key k)) with
    | none =>
      cases hrm : BranchTrie.remove_branch trieEmpty (round_branch_key k) k with
      | none => left; simp [hrm]
      | some dr =>
        have hrm2 := hrm
        unfold BranchTrie.remove_branch at hrm2
        obtain ⟨d2, hfz, hpure⟩ := Option.bind_eq_some.mp hrm2
        obtain ⟨-, hlen2, -⟩ := fillZero_eq_some hfz
        cases hpure
        right
        exact ⟨d2, by rw [hlen2]; rfl,
          by simp [hrm, kvInsertRaw, List.append_assoc]⟩
    | some data =>
      by_cases hTR : data.len = TRIE_SIZE
      · cases hrm : BranchTrie.remove_branch data (round_branch_key k) k with
        | none => left; simp [hTR, hrm]
        | some dr =>
          have hrm2 := hrm
          unfold BranchTrie.remove_branch at hrm2
          obtain ⟨d2, hfz, hpure⟩ := Option.bind_eq_some.mp hrm2
          obtain ⟨-, hlen2, -⟩ := fillZero_eq_some hfz
          cases hpure
          right
          exact ⟨d2, by rw [hlen2, hTR],
            by simp [hTR, hrm, kvInsertRaw, List.append_assoc]⟩
      · left
        simp [hTR]

/-- C7 witness: a successful remove on an empty store leaves a full-size
record under the rounded key, with a trace of one get and one insert. -/
theorem c7_witness :
    ∃ b2 : Blob,
      (TrieStore.remove_branch st0 kZero).2.kv.branches
          (pack_key (round_branch_key kZero)) = some b2 ∧
      b2.len = TRIE_SIZE ∧
      (TrieStore.remove_branch st0 kZero).2.kv.ops =
        st0.kv.ops ++ [StoreOp.get 0 (pack_key (round_branch_key kZero)),
          StoreOp.insertRaw 0 (pack_key (round_branch_key kZero)) b2] :=
  c7_remove_branch_always_rewrites.1 st0 kZero (by decide)

/-- C8 counterexample: `TrieStore::remove_leaf` performs exactly one
underlying `delete` call but leaves the `writes` counter unchanged (0,
not 1 as the claim requires). -/
theorem c8_counterexample :
    (TrieStore.remove_leaf st0 zero32).2.kv.ops = [StoreOp.delete 1 zero32] ∧
    (TrieStore.remove_leaf st0 zero32).2.writes = 0 ∧ st0.writes = 0 :=
  ⟨rfl, rfl, rfl⟩

/-- C8 amended: `get_branch` and `get_leaf` add exactly 1 to `reads` and
leave `writes` unchanged; `insert_branch` and `remove_branch` add exactly
1 to `reads` and add exactly 1 to `writes` when they succeed (on a
corruption error or panic they leave `writes` unchanged, having performed
no underlying write); `insert_leaf` adds exactly 1 to `writes` with one
underlying `insert_raw`; `remove_leaf` performs exactly one underlying
`delete` but leaves both counters unchanged. -/
theorem c8_amended_counter_deltas :
    (∀ (s : TrieState) (k : BranchKey),
      (TrieStore.get_branch s k).2.reads = s.reads + 1 ∧
      (TrieStore.get_branch s k).2.writes = s.writes) ∧
    (∀ (s : TrieState) (lk : Bytes),
      (TrieStore.get_leaf s lk).2.reads = s.reads + 1 ∧
      (TrieStore.get_leaf s lk).2.writes = s.writes) ∧
    (∀ (s : TrieState) (k : BranchKey) (n : BranchNode),
      (TrieStore.insert_branch s k n).2.reads = s.reads + 1 ∧
      ((TrieStore.insert_branch s k n).1 = .ok () →
        (TrieStore.insert_branch s k n).2.writes = s.writes + 1) ∧
      ((TrieStore.insert_branch s k n).1 ≠ .ok () →
        (TrieStore.insert_branch s k n).2.writes = s.writes)) ∧
    (∀ (s : TrieState) (k : BranchKey),
      (TrieStore.remove_branch s k).2.reads = s.reads + 1 ∧
      ((TrieStore.remove_branch s k).1 = .ok () →
        (TrieStore.remove_branch s k).2.writes = s.writes + 1) ∧
      ((TrieStore.remove_branch s k).1 ≠ .ok () →
        (TrieStore.remove_branch s k).2.writes = s.writes)) ∧
    (∀ (s : TrieState) (lk v : Bytes),
      (TrieStore.insert_leaf s lk v).2.writes = s.writes + 1 ∧
      (TrieStore.insert_leaf s lk v).2.reads = s.reads ∧
      (TrieStore.insert_leaf s lk v).2.kv.ops =
        s.kv.ops ++ [StoreOp.insertRaw 1 lk (listToBlob v)]) ∧
    (∀ (s : TrieState) (lk : Bytes),
      (TrieStore.remove_leaf s lk).2.writes = s.writes ∧
      (TrieStore.remove_leaf s lk).2.reads = s.reads ∧
      (TrieStore.remove_leaf s lk).2.kv.ops =
        s.kv.ops ++ [StoreOp.delete 1 lk]) := by
  refine ⟨?_, ?_, ?_, ?_, ?_, ?_⟩
  · intro s k
    unfold TrieStore.get_branch
    simp only [kvGet, reduceIte]
    cases hres : s.kv.branches (pack_key (round_branch_key k)) with
    | none => exact ⟨rfl, rfl⟩
    | some slice =>
      constructor <;> (repeat' split) <;> rfl
  · intro s lk
    unfold TrieStore.get_leaf
    simp only [kvGet, reduceIte]
    cases hres : s.kv.leaves lk with
    | none => exact ⟨rfl, rfl⟩
    | some slice => constructor <;> (repeat' split) <;> rfl
  · intro s k n
    unfold TrieStore.insert_branch
    simp only [kvGet, reduceIte]
    cases hres : s.kv.branches (pack_key (round_branch_key k)) with
    | none =>
      cases hsave : BranchTrie.insert_branch trieEmpty (round_branch_key k) k n
        <;> simp [hsave]
    | some slice =>
      by_cases hTR : slice.len = TRIE_SIZE
      · simp only [hTR, ne_eq, not_true_eq_false, Bool.false_eq_true, reduceIte]
        cases hsave : BranchTrie.insert_branch slice (round_branch_key k) k n
          <;> simp [hsave]
      · simp [hTR]
  · intro s k
    unfold TrieStore.remove_branch
    simp only [kvGet, reduceIte]
    cases hres : s.kv.branches (pack_key (round_branch_key k)) with
    | none =>
      cases hrm : BranchTrie.remove_branch trieEmpty (round_branch_key k) k with
      | none => simp [hrm]
      | some dr =>
        have hrm2 := hrm
        unfold BranchTrie.remove_branch at hrm2
        obtain ⟨d2, hfz, hpure⟩ := Option.bind_eq_some.mp hrm2
        cases hpure
        simp [hrm]
    | some slice =>
      by_cases hTR : slice.len = TRIE_SIZE
      · simp only [hTR, ne_eq, not_true_eq_false, Bool.false_eq_true, reduceIte]
        cases hrm : BranchTrie.remove_branch slice (round_branch_key k) k with
        | none => simp [hrm]
        | some dr =>
          have hrm2 := hrm
          unfold BranchTrie.remove_branch at hrm2
          obtain ⟨d2, hfz, hpure⟩ := Option.bind_eq_some.mp hrm2
          cases hpure
          simp [hrm]
      · simp [hTR]
  · intro s lk v
    exact ⟨rfl, rfl, rfl⟩
  · intro s lk
    exact ⟨rfl, rfl, rfl⟩

/-- C8 witness: the counter deltas at a concrete state, applied through
the amended theorem's conditional parts. -/
theorem c8_witness :
    (TrieStore.insert_branch st0 kZero nodeEx).2.reads = st0.reads + 1 ∧
    (TrieStore.insert_branch st0 kZero nodeEx).2.writes = st0.writes + 1 ∧
    (TrieStore.remove_leaf st0 zero32).2.writes = st0.writes :=
  ⟨(c8_amended_counter_deltas.2.2.1 st0 kZero nodeEx).1,
   (c8_amended_counter_deltas.2.2.1 st0 kZero nodeEx).2.1 (by decide),
   (c8_amended_counter_deltas.2.2.2.2.2 st0 zero32).1⟩

/-- C10: `TrieStore::get_branch` and `TrieStore::get_leaf` are read-only:
they leave every stored record and the `writes` counter unchanged and
issue exactly one underlying `get` (no `insert_raw`, no `delete`). -/
theorem c10_get_operations_read_only :
    (∀ (s : TrieState) (k : BranchKey),
      (TrieStore.get_branch s k).2.kv.branches = s.kv.branches ∧
      (TrieStore.get_branch s k).2.kv.leaves = s.kv.leaves ∧
      (TrieStore.get_branch s k).2.writes = s.writes ∧
      (TrieStore.get_branch s k).2.kv.ops =
        s.kv.ops ++ [StoreOp.get 0 (pack_key (round_branch_key k))]) ∧
    (∀ (s : TrieState) (lk : Bytes),
      (TrieStore.get_leaf s lk).2.kv.branches = s.kv.branches ∧
      (TrieStore.get_leaf s lk).2.kv.leaves = s.kv.leaves ∧
      (TrieStore.get_leaf s lk).2.writes = s.writes ∧
      (TrieStore.get_leaf s lk).2.kv.ops = s.kv.ops ++ [StoreOp.get 1 lk]) := by
  constructor
  · intro s k
    unfold TrieStore.get_branch
    simp only [kvGet, reduceIte]
    cases hres : s.kv.branches (pack_key (round_branch_key k)) with
    | none => exact ⟨rfl, rfl, rfl, rfl⟩
    | some slice =>
      refine ⟨?_, ?_, ?_, ?_⟩ <;> (repeat' split) <;> rfl
  · intro s lk
    unfold TrieStore.get_leaf
    simp only [kvGet, reduceIte]
    cases hres : s.kv.leaves lk with
    | none => exact ⟨rfl, rfl, rfl, rfl⟩
    | some slice => refine ⟨?_, ?_, ?_, ?_⟩ <;> (repeat' split) <;> rfl

/-- C1: for band-aligned branch keys, `calculate_index` equals the spec's
closed form `(2^(8 - innerHeight - 1) - 1) + (directionByte >> (innerHeight + 1))`;
within one band every (inner height, direction-byte) pattern maps to a
slot below 255, every slot in [0,255) is reached by exactly one pattern,
and the band root (inner height 7) maps to slot 0. -/
theorem c1_index_formula_and_band_bijection :
    (∀ k : BranchKey, BandAligned k →
      calculate_index (round_branch_key k) k =
        spec_slot_index (k.height % 8) (direction_byte k)) ∧
    (band_pairs.all fun p => decide (slot_of p < 255)) = true ∧
    ((List.range 255).all fun s =>
      (band_pairs.filter fun p => slot_of p == s).length == 1) = true ∧
    slot_of (7, 0) = 0 :=
  ⟨fun _ hk => calculate_index_spec hk, by decide, by decide, by decide⟩

/-- C1 witness: the closed form at a concrete band-aligned key. -/
theorem c1_witness :
    calculate_index (round_branch_key kZero) kZero =
      spec_slot_index (kZero.height % 8) (direction_byte kZero) :=
  c1_index_formula_and_band_bijection.1 kZero (by decide)

/-- C3 counterexample: at height 7 the `u8` right-shift amount
`innerHeight + 1` is 8 — not less than the byte width 8, i.e. an
overflowing shift, contrary to the claim that it never overflows. -/
theorem c3_counterexample :
    shift_amount ⟨7, zero32⟩ = 8 ∧ ¬ shift_amount ⟨7, zero32⟩ < 8 :=
  ⟨rfl, by decide⟩

/-- C3 amended: for every band-aligned key the shift amount is at most 8
and reaches 8 exactly at inner height 7 (an overflowing `u8` shift that
release builds mask to 0 and debug builds reject); under the masked
semantics the computed slot lies in [0,255), its byte range lies inside
the fixed-size blob, and the slot accesses of get/insert/remove on a
full-size blob do not go out of bounds. -/
theorem c3_amended_slot_access_in_bounds (k : BranchKey) (hk : BandAligned k) :
    shift_amount k ≤ 8 ∧
    (shift_amount k = 8 ↔ k.height % 8 = 7) ∧
    calculate_index (round_branch_key k) k < NODES_PER_TRIE ∧
    calculate_index (round_branch_key k) k * NODE_SIZE + NODE_SIZE ≤ TRIE_SIZE ∧
    (∀ d : Blob, d.len = TRIE_SIZE →
      (BranchTrie.get_branch d (round_branch_key k) k).isSome = true ∧
      (BranchTrie.remove_branch d (round_branch_key k) k).isSome = true ∧
      ∀ n : BranchNode, ReprBranchNode n →
        (BranchTrie.insert_branch d (round_branch_key k) k n).isSome = true) := by
  have hlt : calculate_index (round_branch_key k) k < 255 := calculate_index_lt hk
  refine ⟨?_, ?_, ?_, ?_, ?_⟩
  · unfold shift_amount BYTE_SIZE
    omega
  · unfold shift_amount BYTE_SIZE
    omega
  · rw [NODES_PER_TRIE_eq]
    exact hlt
  · simp only [NODE_SIZE_eq, TRIE_SIZE_eq]
    omega
  · intro d hd
    have hbound : calculate_index (round_branch_key k) k * NODE_SIZE + NODE_SIZE
        ≤ d.len := by
      rw [hd]
      simp only [NODE_SIZE_eq, TRIE_SIZE_eq]
      omega
    refine ⟨?_, ?_, ?_⟩
    · unfold BranchTrie.get_branch
      exact load_branch_node_isSome hbound
    · simp only [BranchTrie.remove_branch]
      rw [fillZero_pos hbound]
      rfl
    · intro n hn
      unfold BranchTrie.insert_branch
      exact save_branch_node_isSome hn hbound

/-- C3 witness: the amended bounds at a concrete band-aligned key and a
concrete full-size blob. -/
theorem c3_witness :
    calculate_index (round_branch_key kZero) kZero < NODES_PER_TRIE ∧
    (BranchTrie.get_branch blobZero (round_branch_key kZero) kZero).isSome
      = true :=
  ⟨(c3_amended_slot_access_in_bounds kZero (by decide)).2.2.1,
   ((c3_amended_slot_access_in_bounds kZero (by decide)).2.2.2.2 blobZero
     rfl).1⟩

/-- C4: every representable merge value saved at an in-bounds offset loads
back unchanged, and every representable branch node saved at an in-bounds
slot index loads back unchanged. -/
theorem c4_codec_round_trip :
    (∀ (d : Blob) (o : Nat) (v : MergeValue), ReprMergeValue v →
      o + MERGE_VALUE_SIZE ≤ d.len →
      (save_merge_value d o v).bind (fun d2 => load_merge_value d2 o) =
        some v) ∧
    (∀ (d : Blob) (i : Nat) (n : BranchNode), ReprBranchNode n →
      i * NODE_SIZE + NODE_SIZE ≤ d.len →
      (save_branch_node d i n).bind (fun d2 => load_branch_node d2 i) =
        some n) := by
  constructor
  · intro d o v hv ho
    obtain ⟨d2, hd2⟩ := Option.isSome_iff_exists.mp (save_merge_value_isSome hv ho)
    rw [hd2]
    simp only [Option.some_bind]
    exact (save_merge_value_eq_some hd2).2.2
  · intro d i n hn hi
    obtain ⟨d2, hd2⟩ := Option.isSome_iff_exists.mp (save_branch_node_isSome hn hi)
    rw [hd2]
    simp only [Option.some_bind]
    exact (save_branch_node_eq_some hd2).2.2

/-- C4 witness: the round trip at concrete buffers, offsets and values
(one merge value into a dirty buffer, one branch node into a blob). -/
theorem c4_witness :
    (save_merge_value blobSeven 0 (MergeValue.value (List.replicate 32 1))).bind
        (fun d2 => load_merge_value d2 0) =
      some (MergeValue.value (List.replicate 32 1)) ∧
    (save_branch_node blobZero 0 nodeEx).bind (fun d2 => load_branch_node d2 0) =
      some nodeEx :=
  ⟨c4_codec_round_trip.1 blobSeven 0 (MergeValue.value (List.replicate 32 1))
      (by decide) (by decide),
   c4_codec_round_trip.2 blobZero 0 nodeEx (by decide) (by decide)⟩

/-- C5 counterexample: with a one-byte branch record stored under the
direct key of `kZero`, `CountingStore::get_branch` panics inside the
molecule `from_slice_should_be_ok` instead of returning a Corruption
error to the caller. -/
theorem c5_counterexample :
    (CountingStore.get_branch stBadDirect kZero).1 = Outcome.panic := by
  decide

/-- C5 amended: in the packed `TrieStore`, a branch record of a length
other than the fixed blob size makes `get_branch`, `insert_branch` and
`remove_branch` return the Corruption error, and a leaf record of a
length other than 32 makes `get_leaf` (in both stores, which share the
code) return the Corruption error; `CountingStore::get_branch`, however,
has no error path: a stored branch record that fails molecule
verification makes it panic. -/
theorem c5_amended_corruption_handling :
    (∀ (s : TrieState) (k : BranchKey) (b : Blob),
      s.kv.branches (pack_key (round_branch_key k)) = some b →
      b.len ≠ TRIE_SIZE →
      (TrieStore.get_branch s k).1 = .err "corrupted trie" ∧
      (∀ n, (TrieStore.insert_branch s k n).1 = .err "corrupted trie") ∧
      (TrieStore.remove_branch s k).1 = .err "corrupted trie") ∧
    (∀ (s : TrieState) (lk : Bytes) (b : Blob),
      s.kv.leaves lk = some b → b.len ≠ 32 →
      (TrieStore.get_leaf s lk).1 = .err "get corrupted leaf" ∧
      (CountingStore.get_leaf s lk).1 = .err "get corrupted leaf") ∧
    (∀ (s : TrieState) (k : BranchKey) (b : Blob),
      s.kv.branches (pack_key k) = some b →
      smtBranchNode_from_slice (blobToList b) = none →
      (CountingStore.get_branch s k).1 = .panic) := by
  refine ⟨?_, ?_, ?_⟩
  · intro s k b hb hlen
    refine ⟨get_branch_of_stored_bad hb hlen, ?_, ?_⟩
    · intro n
      unfold TrieStore.insert_branch
      simp [kvGet, hb, hlen]
    · unfold TrieStore.remove_branch
      simp [kvGet, hb, hlen]
  · intro s lk b hb hlen
    constructor
    · unfold TrieStore.get_leaf
      simp [kvGet, hb, hlen]
    · unfold CountingStore.get_leaf TrieStore.get_leaf
      simp [kvGet, hb, hlen]
  · intro s k b hb hnone
    unfold CountingStore.get_branch
    simp [kvGet, hb, hnone]

/-- C5 witness: the amended behaviour at concrete corrupt states. -/
theorem c5_witness :
    (TrieStore.get_branch stBadBlob kZero).1 = .err "corrupted trie" ∧
    (TrieStore.get_leaf stBadLeaf zero32).1 = .err "get corrupted leaf" ∧
    (CountingStore.get_branch stBadDirect kZero).1 = Outcome.panic :=
  ⟨(c5_amended_corruption_handling.1 stBadBlob kZero blobShort rfl
      (by decide)).1,
   (c5_amended_corruption_handling.2.1 stBadLeaf zero32 blobShort rfl
      (by decide)).1,
   c5_amended_corruption_handling.2.2 stBadDirect kZero blobShort rfl
      (by decide)⟩

/-- C9 counterexample: saving a plain value at offset 0 into a buffer
filled with 7s leaves the zero-count byte (offset 1) and the first
zero-bits byte (offset 34) at 7, not 0 — the claimed canonical form does
not hold regardless of prior contents. -/
theorem c9_counterexample :
    (save_merge_value blobSeven 0 (MergeValue.value zero32)).map
        (fun d => (d.bytes 1, d.bytes 34)) = some (7, 7) := by
  decide

/-- C9 amended: saving a plain value writes tag byte 0 and the 32 value
bytes and leaves the zero-count byte and the 32 zero-bits bytes at the
buffer's previous contents; hence the canonical form (zero-count 0,
zero-bits all zero) holds after the write exactly on buffers where those
bytes were already zero, such as a fresh or slot-zeroed blob. -/
theorem c9_amended_value_encoding (d : Blob) (o : Nat) (v : Bytes) (d2 : Blob)
    (h : save_merge_value d o (.value v) = some d2) :
    d2.bytes o = 0 ∧
    (∀ j, j < 32 → d2.bytes (o + 2 + j) = v.getD j 0) ∧
    d2.bytes (o + 1) = d.bytes (o + 1) ∧
    (∀ j, 34 ≤ j → j < 66 → d2.bytes (o + j) = d.bytes (o + j)) ∧
    ((d.bytes (o + 1) = 0 ∧ ∀ j, 34 ≤ j → j < 66 → d.bytes (o + j) = 0) →
      d2.bytes (o + 1) = 0 ∧ ∀ j, 34 ≤ j → j < 66 → d2.bytes (o + j) = 0) := by
  unfold save_merge_value at h
  obtain ⟨d1, h1, h2⟩ := Option.bind_eq_some.mp h
  obtain ⟨hi, hl1, hb1⟩ := writeByte_eq_some h1
  obtain ⟨hsrc, ho, hl2, hb2⟩ := save_h256_eq_some h2
  have htag : d2.bytes o = 0 := by
    rw [hb2 o, if_neg (by omega), hb1 o, if_pos rfl]
  have hval : ∀ j, j < 32 → d2.bytes (o + 2 + j) = v.getD j 0 := by
    intro j hj
    rw [hb2 (o + 2 + j), if_pos (by omega)]
    congr 1
    omega
  have hzc : d2.bytes (o + 1) = d.bytes (o + 1) := by
    rw [hb2 (o + 1), if_neg (by omega), hb1 (o + 1), if_neg (by omega)]
  have hzb : ∀ j, 34 ≤ j → j < 66 → d2.bytes (o + j) = d.bytes (o + j) := by
    intro j h34 h66
    rw [hb2 (o + j), if_neg (by omega), hb1 (o + j), if_neg (by omega)]
  refine ⟨htag, hval, hzc, hzb, ?_⟩
  rintro ⟨hz1, hz2⟩
  exact ⟨by rw [hzc]; exact hz1,
    fun j h34 h66 => by rw [hzb j h34 h66]; exact hz2 j h34 h66⟩

/-- C9 witness: saving the all-zero plain value into a fresh all-zero
blob does produce the canonical form at slot 0. -/
theorem c9_witness : blobSaved.bytes 1 = 0 ∧ blobSaved.bytes 0 = 0 := by
  have h : save_merge_value blobZero 0 (MergeValue.value zero32) =
      some blobSaved := rfl
  have hc := c9_amended_value_encoding blobZero 0 zero32 blobSaved h
  exact ⟨by rw [hc.2.2.1]; rfl, hc.1⟩

end SmtBench
